import Mathlib

/-!
Verification of the PubMed Central client utility (`src/Utils/pubmed.py`).

The development shallowly embeds the three operations of the module —
`search_pmc`, `get_pmc_metadata` and `download_article_files` — as pure
Lean functions.  XML documents (as produced by `xml.etree.ElementTree`)
are modelled by the mutually inductive `XML`/`XMLs` (the second type is
an inlined list of children, isomorphic to `List XML`); network
responses, the tarfile library and the file system are abstract inputs,
so that each function becomes a deterministic map from its inputs to
its observable outputs (returned values, log lines, created
directories, final set of file paths).  Python exceptions that may
escape a function are modelled with `Except`.
-/

namespace PMC

mutual

/-- Model of an `xml.etree.ElementTree` element: tag, attribute list,
`text`, `tail` and the children. -/
inductive XML where
  | mk (tag : String) (attrs : List (String × String)) (text : Option String)
       (tail : Option String) (children : XMLs)

/-- A list of sibling elements (kept as a separate inductive so that
recursive functions over the tree reduce definitionally). -/
inductive XMLs where
  | nil
  | cons (head : XML) (tail : XMLs)

end

/-- Tag of an element. -/
def XML.tag : XML → String
  | .mk t _ _ _ _ => t

/-- Attribute list of an element. -/
def XML.attrs : XML → List (String × String)
  | .mk _ a _ _ _ => a

/-- The `text` field of an element (`None` modelled as `none`). -/
def XML.text : XML → Option String
  | .mk _ _ x _ _ => x

/-- The `tail` field of an element. -/
def XML.tail : XML → Option String
  | .mk _ _ _ tl _ => tl

/-- Child elements of an element. -/
def XML.children : XML → XMLs
  | .mk _ _ _ _ cs => cs

/-- View of a sibling list as a plain `List`. -/
def XMLs.toList : XMLs → List XML
  | .nil => []
  | .cons c r => c :: r.toList

/-- Embedding of a plain `List` of elements as a sibling list. -/
def ofList : List XML → XMLs
  | [] => .nil
  | c :: r => .cons c (ofList r)

/-- Convenience constructor for concrete documents. -/
def el (tag : String) (attrs : List (String × String)) (text tail : Option String)
    (children : List XML) : XML :=
  XML.mk tag attrs text tail (ofList children)

/-- Model of `Element.get`: first attribute with the given name. -/
def attrVal (e : XML) (k : String) : Option String :=
  (e.attrs.find? (fun p => p.1 == k)).map (·.2)

/-- Model of `Element.get(key, default)`. -/
def attrValD (e : XML) (k d : String) : String :=
  (attrVal e k).getD d

mutual

/-- Preorder enumeration rooted at one element: the element followed by
all of its descendants, in document order. -/
def iterAll : XML → List XML
  | .mk t a x tl cs => XML.mk t a x tl cs :: iterAllL cs

/-- Preorder enumeration of a forest.  This is the order in which
`ElementTree` path queries starting with `.//` visit nodes. -/
def iterAllL : XMLs → List XML
  | .nil => []
  | .cons c rest => iterAll c ++ iterAllL rest

end

/-- Model of `e.findall(".//tag")`: all proper descendants of `e` with
the given tag, in document order. -/
def descFindAll (tag : String) (e : XML) : List XML :=
  (iterAllL e.children).filter (fun c => c.tag == tag)

/-- Model of `e.find(".//tag")`: first proper descendant with the tag. -/
def descFind (tag : String) (e : XML) : Option XML :=
  (descFindAll tag e).head?

/-- Model of `e.findall(".//tag[@key='val']")`. -/
def descFindAllAttr (tag key val : String) (e : XML) : List XML :=
  (iterAllL e.children).filter
    (fun c => c.tag == tag && attrVal c key == some val)

/-- Model of `e.find(".//tag[@key='val']")`. -/
def descFindAttr (tag key val : String) (e : XML) : Option XML :=
  (descFindAllAttr tag key val e).head?

/-- Model of `e.find("tag")`: first direct child with the tag. -/
def childFind (tag : String) (e : XML) : Option XML :=
  e.children.toList.find? (fun c => c.tag == tag)

mutual

/-- Model of `"".join(e.itertext())`: the element's `text` followed by
the texts and tails of all descendants (the outer tail excluded). -/
def joinItertext : XML → String
  | .mk _ _ x _ cs => x.getD "" ++ joinChildrenText cs

/-- Concatenated `itertext()` of a forest, where each sibling
contributes its own `itertext` followed by its `tail`. -/
def joinChildrenText : XMLs → String
  | .nil => ""
  | .cons c rest => joinItertext c ++ c.tail.getD "" ++ joinChildrenText rest

end

/-- Python string formatting helper: `None` renders as the string
`"None"` inside an f-string. -/
def pyFormat : Option String → String
  | none => "None"
  | some s => s

/-- Whitespace characters stripped by Python's `str.strip()`. -/
def isPyWs (c : Char) : Bool :=
  c == ' ' || c == '\t' || c == '\n' || c == '\r' ||
  c == Char.ofNat 11 || c == Char.ofNat 12

/-- Model of Python's `str.strip()`. -/
def pyStrip (s : String) : String :=
  String.mk (((s.toList.dropWhile isPyWs).reverse.dropWhile isPyWs).reverse)

/-- Model of Python's `str.startswith` (computation kept on character
lists so that it reduces definitionally). -/
def strStarts (s pre : String) : Bool :=
  pre.toList.isPrefixOf s.toList

/-- Model of Python's `str.endswith`. -/
def strEnds (s suf : String) : Bool :=
  suf.toList.isSuffixOf s.toList

/-- Model of `str.lower()` on the ASCII names the source handles. -/
def pyLower (s : String) : String :=
  String.mk (s.toList.map Char.toLower)

/-- Model of `str.upper()` on the ASCII names the source handles. -/
def pyUpper (s : String) : String :=
  String.mk (s.toList.map Char.toUpper)

/-- Left-to-right non-overlapping replacement of `"ftp://"` by
`"https://"`, the specialisation of `str.replace` the source uses. -/
def replFtpL : List Char → List Char
  | 'f' :: 't' :: 'p' :: ':' :: '/' :: '/' :: rest =>
      'h' :: 't' :: 't' :: 'p' :: 's' :: ':' :: '/' :: '/' :: replFtpL rest
  | c :: rest => c :: replFtpL rest
  | [] => []

/-- Model of `href.replace("ftp://", "https://")`. -/
def replFtp (s : String) : String :=
  String.mk (replFtpL s.toList)

/-- Truthiness of an `ElementTree` element: true iff it has children
(this is the semantics used by `bool(element)` and hence by `or`). -/
def truthy (e : XML) : Bool :=
  match e.children with
  | .nil => false
  | .cons _ _ => true

/-- Model of Python's `a or b` on two optional elements: the left value
when it is present and truthy, otherwise the right value. -/
def pyOrE (a b : Option XML) : Option XML :=
  match a with
  | some x => if truthy x then some x else b
  | none => b

/-- Python exceptions that can escape the modelled functions. -/
inductive PyExn where
  | attributeError
  | httpError
  | typeError
deriving DecidableEq

/-- Record built for one parsed article by `get_pmc_metadata`
(the dictionary appended to `articles`).  Fields that can receive a
Python `None` are `Option`-valued. -/
structure Article where
  pmcid : String
  title : String
  journal : Option String
  pub_date : String
  authors : List (Option String)
  pub_type : String
  abstract : String
  mesh_terms : List String
  references : List String

/-- Title extraction (line 83-84): concatenated `itertext` of the first
`article-title` descendant of `article-meta`, else a placeholder. -/
def titleOf (meta : XML) : String :=
  match descFind "article-title" meta with
  | some t => joinItertext t
  | none => "No Title"

/-- Identifier extraction (lines 87-96): the `article-id` node marked
`pub-id-type='pmcid'`; text already starting with `"PMC"` is kept,
otherwise `"PMC"` is prepended; a missing node gives `"Unknown"`.  A
node whose `text` is `None` raises `AttributeError` (uncaught in the
source, so the whole call fails). -/
def pmcidOf (meta : XML) : Except PyExn String :=
  match descFindAttr "article-id" "pub-id-type" "pmcid" meta with
  | some node =>
      match node.text with
      | none => .error .attributeError
      | some t => .ok (if strStarts t "PMC" then t else "PMC" ++ t)
  | none => .ok "Unknown"

/-- Abstract extraction (lines 99-100). -/
def abstractOf (meta : XML) : String :=
  match descFind "abstract" meta with
  | some n => pyStrip (joinItertext n)
  | none => "No Abstract"

/-- Keyword extraction (lines 103-106): texts of all `kwd` descendants,
skipping nodes whose text is `None` or empty (Python truthiness). -/
def keywordsOf (meta : XML) : List String :=
  (descFindAll "kwd" meta).filterMap (fun kw =>
    match kw.text with
    | some t => if t.isEmpty then none else some t
    | none => none)

/-- Citation-node selection for one `ref` entry (line 116): the Python
expression `ref.find(".//mixed-citation") or ref.find(".//citation") or
ref.find(".//element-citation")`, with element truthiness. -/
def citationPick (ref : XML) : Option XML :=
  pyOrE (pyOrE (descFind "mixed-citation" ref) (descFind "citation" ref))
    (descFind "element-citation" ref)

/-- Reference extraction (lines 112-118): for each `ref` descendant of
the article, the stripped concatenated text of the selected citation
node, skipped when the selection is `None`. -/
def referencesOf (article : XML) : List String :=
  (descFindAll "ref" article).filterMap (fun ref =>
    (citationPick ref).map (fun c => pyStrip (joinItertext c)))

/-- Journal extraction (lines 121-122): the raw `text` of the first
`journal-title` descendant (which may be `None`), else a placeholder. -/
def journalOf (article : XML) : Option String :=
  match descFind "journal-title" article with
  | some n => n.text
  | none => some "Unknown Journal"

/-- One date segment (line 130): a missing child node yields the given
default, a present node contributes its text rendered by the f-string
(so a `None` text renders as `"None"`). -/
def dateSeg (n : Option XML) (dflt : String) : String :=
  match n with
  | none => dflt
  | some nd => pyFormat nd.text

/-- Publication-date extraction (lines 125-132): built from the `year`,
`month` and `day` direct children of the first `pub-date` descendant,
with defaults `""`, `"01"`, `"01"`; an absent `pub-date` node yields
the placeholder `"Unknown Date"`. -/
def pubDateOf (article : XML) : String :=
  match descFind "pub-date" article with
  | some pd =>
      dateSeg (childFind "year" pd) "" ++ "-" ++
      dateSeg (childFind "month" pd) "01" ++ "-" ++
      dateSeg (childFind "day" pd) "01"
  | none => "Unknown Date"

/-- Author extraction (lines 135-142): contributors flagged as authors
yield `"Surname, Given"` when both names are present, the raw surname
text when only the surname node is present, and nothing otherwise. -/
def authorsOf (meta : XML) : List (Option String) :=
  (descFindAllAttr "contrib" "contrib-type" "author" meta).filterMap (fun c =>
    match descFind "surname" c, descFind "given-names" c with
    | some s, some g => some (some (pyFormat s.text ++ ", " ++ pyFormat g.text))
    | some s, none => some s.text
    | none, _ => none)

/-- Processing of one `article` node (lines 76-154 loop body): articles
without an `article-meta` descendant are skipped (`none`); otherwise
the record is assembled, propagating the possible exception of the
identifier lookup. -/
def processArticle (a : XML) : Except PyExn (Option Article) :=
  match descFind "article-meta" a with
  | none => .ok none
  | some meta =>
      match pmcidOf meta with
      | .error e => .error e
      | .ok pmcid =>
          .ok (some
            { pmcid := pmcid
              title := titleOf meta
              journal := journalOf a
              pub_date := pubDateOf a
              authors := authorsOf meta
              pub_type := attrValD a "article-type" "Unknown"
              abstract := abstractOf meta
              mesh_terms := keywordsOf meta
              references := referencesOf a })

/-- The article loop of `get_pmc_metadata`: records accumulated in
order, skipped articles contributing nothing, an exception aborting the
whole call. -/
def parseArticles : List XML → Except PyExn (List Article)
  | [] => .ok []
  | a :: rest =>
      match processArticle a with
      | .error e => .error e
      | .ok r =>
          match parseArticles rest with
          | .error e => .error e
          | .ok rs =>
              match r with
              | none => .ok rs
              | some art => .ok (art :: rs)

/-- Outcome of the efetch HTTP request plus XML parse, which are
library calls and therefore inputs of the model. -/
inductive FetchResult where
  | transportError
  | parseFail
  | parsed (root : XML)

/-- Model of `get_pmc_metadata` (lines 47-156): an empty identifier
list short-circuits to `[]`; a transport error propagates as an
exception; an XML parse failure yields `[]`; otherwise every `article`
descendant of the parsed root is processed. -/
def get_pmc_metadata (id_list : List String) (resp : FetchResult) :
    Except PyExn (List Article) :=
  if id_list.isEmpty then .ok []
  else
    match resp with
    | .transportError => .error .httpError
    | .parseFail => .ok []
    | .parsed root => parseArticles (descFindAll "article" root)

/-! ## Dates and `search_pmc` -/

/-- A calendar date as held by a Python `datetime` value (time of day
is irrelevant to the modelled code). -/
structure Date where
  year : Nat
  month : Nat
  day : Nat
deriving DecidableEq

/-- Gregorian leap-year test. -/
def isLeap (y : Nat) : Bool :=
  decide (y % 4 = 0 ∧ (y % 100 ≠ 0 ∨ y % 400 = 0))

/-- One when the year is leap, zero otherwise. -/
def leapAdj (y : Nat) : Nat :=
  if isLeap y then 1 else 0

/-- Length of a month in the given year (zero for out-of-range month
numbers). -/
def daysInMonth (y m : Nat) : Nat :=
  match m with
  | 1 => 31 | 2 => 28 + leapAdj y | 3 => 31 | 4 => 30 | 5 => 31 | 6 => 30
  | 7 => 31 | 8 => 31 | 9 => 30 | 10 => 31 | 11 => 30 | 12 => 31 | _ => 0

/-- Days of the year strictly before the given month. -/
def daysBefore (y m : Nat) : Nat :=
  match m with
  | 1 => 0 | 2 => 31 | 3 => 59 + leapAdj y | 4 => 90 + leapAdj y
  | 5 => 120 + leapAdj y | 6 => 151 + leapAdj y | 7 => 181 + leapAdj y
  | 8 => 212 + leapAdj y | 9 => 243 + leapAdj y | 10 => 273 + leapAdj y
  | 11 => 304 + leapAdj y | 12 => 334 + leapAdj y | _ => 0

/-- Number of leap years in `1..n`. -/
def leapsUpto (n : Nat) : Nat :=
  n / 4 + n / 400 - n / 100

/-- Proleptic Gregorian day number (day 1 is January 1 of year 1);
this is the same day count as Python's `date.toordinal`. -/
def dayNumber (d : Date) : Nat :=
  365 * (d.year - 1) + leapsUpto (d.year - 1) + daysBefore d.year d.month + d.day

/-- Validity of a calendar date. -/
def validDate (d : Date) : Prop :=
  1 ≤ d.year ∧ 1 ≤ d.month ∧ d.month ≤ 12 ∧ 1 ≤ d.day ∧
    d.day ≤ daysInMonth d.year d.month

instance (d : Date) : Decidable (validDate d) := by
  unfold validDate; infer_instance

/-- The calendar day immediately before `d`. -/
def predDay (d : Date) : Date :=
  if 1 < d.day then { d with day := d.day - 1 }
  else if 1 < d.month then
    { year := d.year, month := d.month - 1, day := daysInMonth d.year (d.month - 1) }
  else { year := d.year - 1, month := 12, day := 31 }

/-- Semantics of `datetime - timedelta(days=n)`: the calendar date `n`
days earlier. -/
def dateSubDays (d : Date) (n : Nat) : Date :=
  predDay^[n] d

/-- Decimal digit characters of a two-digit zero-padded field
(`strftime` directives `%m` and `%d`). -/
def pad2 (n : Nat) : String :=
  String.mk [Nat.digitChar (n / 10 % 10), Nat.digitChar (n % 10)]

/-- Four-digit zero-padded year field (`strftime` directive `%Y`, for
years up to 9999). -/
def pad4 (n : Nat) : String :=
  String.mk [Nat.digitChar (n / 1000 % 10), Nat.digitChar (n / 100 % 10),
    Nat.digitChar (n / 10 % 10), Nat.digitChar (n % 10)]

/-- Model of `strftime("%Y/%m/%d")`. -/
def strfDate (d : Date) : String :=
  pad4 d.year ++ "/" ++ pad2 d.month ++ "/" ++ pad2 d.day

/-- Query parameters issued by `search_pmc` (lines 25-33). -/
structure SearchParams where
  db : String
  term : String
  retmode : String
  retmax : Nat
  datetype : String
  mindate : Option String
  maxdate : Option String
deriving DecidableEq

/-- Model of the parameter-building part of `search_pmc` (lines 10-33):
when both `mindate` and `maxdate` are `None`, the window defaults to
the 15 days before the current date `now`, formatted `YYYY/MM/DD`. -/
def search_pmc_params (term : String) (max_results : Nat)
    (mindate maxdate : Option String) (now : Date) : SearchParams :=
  let dates :=
    match mindate, maxdate with
    | none, none => (some (strfDate (dateSubDays now 15)), some (strfDate now))
    | _, _ => (mindate, maxdate)
  { db := "pmc", term := term, retmode := "json", retmax := max_results,
    datetype := "pdat", mindate := dates.1, maxdate := dates.2 }

/-- JSON values, as returned by `response.json()`. -/
inductive JSON where
  | obj (fields : List (String × JSON))
  | arr (elems : List JSON)
  | str (s : String)
  | num (n : Int)
  | bool (b : Bool)
  | null

/-- Dictionary lookup on a parsed JSON object: `json.loads` keeps the
last binding of a repeated key. -/
def jlookup (fields : List (String × JSON)) (k : String) : Option JSON :=
  ((fields.filter (fun p => p.1 == k)).getLast?).map (·.2)

/-- Model of Python subscripting `data[k]`: a present key yields its
value, a missing key raises `KeyError`, a non-dict value raises
`TypeError`. -/
inductive JGet where
  | found (v : JSON)
  | keyError
  | typeError

/-- Subscript operation used by `search_pmc`. -/
def jget (j : JSON) (k : String) : JGet :=
  match j with
  | .obj fs =>
      match jlookup fs k with
      | some v => .found v
      | none => .keyError
  | _ => .typeError

/-- Model of the response handling of `search_pmc` (lines 39-44): the
value of `data["esearchresult"]["idlist"]` is returned verbatim; a
`KeyError` anywhere in the lookup is caught and yields the empty list;
a `TypeError` propagates. -/
def search_pmc_extract (data : JSON) : Except PyExn JSON :=
  match jget data "esearchresult" with
  | .found inner =>
      match jget inner "idlist" with
      | .found v => .ok v
      | .keyError => .ok (.arr [])
      | .typeError => .error .typeError
  | .keyError => .ok (.arr [])
  | .typeError => .error .typeError

/-! ## `download_article_files` -/

/-- Path join specialised to the two-component joins the source
performs (`os.path.join` with relative second components). -/
def pathJoin (a b : String) : String :=
  a ++ "/" ++ b

/-- Accumulating scan keeping the segment after the last slash. -/
def basenameL : List Char → List Char → List Char
  | [], acc => acc
  | c :: rest, acc =>
      if c == Char.ofNat 47 then basenameL rest []
      else basenameL rest (acc ++ [c])

/-- Model of `os.path.basename` for URL-like strings: the part after
the last slash. -/
def basenameOf (s : String) : String :=
  String.mk (basenameL s.toList [])

/-- Outcome of the OA lookup request together with the XML parse of its
body (both library calls, hence inputs of the model). -/
inductive OAResponse where
  | transportError (msg : String)
  | parseError
  | parsed (root : XML)

/-- Outcome of one streamed file download (lines 209-213 / 227-231):
`ok` writes the target file completely; `failNoFile` is an exception
raised before the target is opened (e.g. `raise_for_status`);
`failMid` is an exception raised after the target was created. -/
inductive DLOut where
  | ok
  | failNoFile (msg : String)
  | failMid (msg : String)

/-- Outcome of `tar.extractall` (line 235-236): on success the files
found below the article directory are given as `(directory, filename)`
pairs in the order in which the subsequent `os.walk` visits them. -/
inductive TarOut where
  | tarError (msg : String)
  | extracted (entries : List (String × String))

/-- Abstract environment for one `download_article_files` call. -/
structure DLEnv where
  oa : OAResponse
  dl : String → DLOut
  tar : TarOut

/-- Observable effects of a `download_article_files` call: log lines in
order, directories created, and the set of file paths existing at the
end (the article directory starts empty). -/
structure DLState where
  logs : List String
  dirs : List String
  fs : List String

/-- Insertion of a path into the file-path set. -/
def fsInsert (fs : List String) (p : String) : List String :=
  if p ∈ fs then fs else p :: fs

/-- Appending of one log line. -/
def DLState.addLog (s : DLState) (m : String) : DLState :=
  { s with logs := s.logs ++ [m] }

/-- Recording of one written file. -/
def DLState.addFile (s : DLState) (p : String) : DLState :=
  { s with fs := fsInsert s.fs p }

/-- Removal of a path from the file-path set. -/
def fsErase (fs : List String) (p : String) : List String :=
  fs.filter (fun q => q != p)

/-- Insertion of many paths. -/
def fsInsertAll (fs : List String) (ps : List String) : List String :=
  ps.foldl fsInsert fs

/-- Full path of a walked `(directory, filename)` entry. -/
def entryPath (e : String × String) : String :=
  pathJoin e.1 e.2

/-- Classification used by the rename loop (line 244): the branch for
files whose lowercased name ends in `.pdf`. -/
def isPdfName (name : String) : Bool :=
  strEnds (pyLower name) ".pdf"

/-- Classification used by the rename loop (line 252): the `elif`
branch for files whose lowercased name ends in `.nxml` or `.xml`
(only reached when the `.pdf` branch did not match). -/
def isXmlName (name : String) : Bool :=
  !isPdfName name && (strEnds (pyLower name) ".nxml" || strEnds (pyLower name) ".xml")

/-- The rename scan over extracted files (lines 242-257): the first
file of each type is renamed to the canonical name unless the target
path already exists; later files of the same type are left in place
because the target then exists. -/
def renameLoop (article_dir pmcid : String) :
    List (String × String) → List String → List String → List String × List String
  | [], fs, logs => (fs, logs)
  | (dir, file) :: rest, fs, logs =>
      if isPdfName file then
        if pathJoin article_dir (pmcid ++ ".pdf") ∈ fs then
          renameLoop article_dir pmcid rest fs logs
        else
          renameLoop article_dir pmcid rest
            (fsInsert (fsErase fs (pathJoin dir file)) (pathJoin article_dir (pmcid ++ ".pdf")))
            (logs ++ ["Renamed " ++ file ++ " to " ++ pmcid ++ ".pdf"])
      else if isXmlName file then
        if pathJoin article_dir (pmcid ++ ".nxml") ∈ fs then
          renameLoop article_dir pmcid rest fs logs
        else
          renameLoop article_dir pmcid rest
            (fsInsert (fsErase fs (pathJoin dir file)) (pathJoin article_dir (pmcid ++ ".nxml")))
            (logs ++ ["Renamed " ++ file ++ " to " ++ pmcid ++ ".nxml"])
      else renameLoop article_dir pmcid rest fs logs

/-- Link-map construction (lines 188-195): entries keyed by the
`format` attribute, `href` values required truthy, an `ftp://` scheme
replaced by `https://`, later entries overwriting earlier ones. -/
def buildLinks (ls : List XML) : List (Option String × String) :=
  ls.foldl (fun acc e =>
    match attrVal e "href" with
    | some h =>
        if h == "" then acc
        else
          let h2 := if strStarts h "ftp://" then replFtp h else h
          let k := attrVal e "format"
          if acc.any (fun p => p.1 == k) then
            acc.map (fun p => if p.1 == k then (k, h2) else p)
          else acc ++ [(k, h2)]
    | none => acc) []

/-- Lookup in the link map. -/
def linksGet (links : List (Option String × String)) (fmt : String) : Option String :=
  (links.find? (fun p => p.1 == some fmt)).map (·.2)

/-- One direct download attempt (lines 201-217) for a format present in
the link map. -/
def directOne (article_dir pmcid fmt ext : String) (links : List (Option String × String))
    (env : DLEnv) (st : DLState × Bool) : DLState × Bool :=
  match linksGet links fmt with
  | none => st
  | some href =>
      let name := pmcid ++ "." ++ ext
      let path := pathJoin article_dir name
      let s := st.1.addLog ("Downloading " ++ pyUpper fmt ++ " as " ++ name ++ "...")
      match env.dl href with
      | .ok => ((s.addFile path).addLog ("Saved " ++ name), true)
      | .failNoFile m =>
          (s.addLog ("Failed to download " ++ href ++ ": " ++ m), st.2)
      | .failMid m =>
          ((s.addFile path).addLog ("Failed to download " ++ href ++ ": " ++ m), st.2)

/-- The archive fallback (lines 220-263), entered with the state after
the direct attempts and the current `downloaded_something` flag. -/
def tgzStep (article_dir pmcid : String) (links : List (Option String × String))
    (env : DLEnv) (st : DLState × Bool) : DLState × Bool :=
  if st.2 then st
  else
    match linksGet links "tgz" with
    | none => st
    | some href =>
        let tgz_name := basenameOf href
        let tgz_path := pathJoin article_dir tgz_name
        let s := st.1.addLog ("Downloading OA Package (TGZ): " ++ tgz_name ++ "...")
        match env.dl href with
        | .failNoFile m =>
            (s.addLog ("Failed to download package " ++ href ++ ": " ++ m), false)
        | .failMid m =>
            ((s.addFile tgz_path).addLog ("Failed to download package " ++ href ++ ": " ++ m),
             false)
        | .ok =>
            let s := (s.addFile tgz_path).addLog ("Extracting " ++ tgz_name ++ "...")
            match env.tar with
            | .tarError m => (s.addLog ("Failed to extract tarball: " ++ m), false)
            | .extracted entries =>
                let fs1 := fsInsertAll s.fs (entries.map entryPath)
                let fs2 := fsErase fs1 tgz_path
                let scanned := renameLoop article_dir pmcid entries fs2 []
                ({ logs := s.logs ++ scanned.2, dirs := s.dirs, fs := scanned.1 }, true)

/-- Model of `download_article_files` (lines 159-266).  The OA query
and parse failures return before anything is written; a response with
an `error` node logs the service code and message and returns before
the article directory is created; otherwise the directory is created,
links collected, direct downloads attempted, and the archive fallback
run, with a final log line when nothing was obtained. -/
def download_article_files (pmcid save_dir : String) (env : DLEnv) : DLState :=
  match env.oa with
  | .transportError msg =>
      { logs := ["Error querying OA API for " ++ pmcid ++ ": " ++ msg],
        dirs := [], fs := [] }
  | .parseError =>
      { logs := ["Failed to parse OA XML for " ++ pmcid], dirs := [], fs := [] }
  | .parsed root =>
      match descFind "error" root with
      | some err =>
          { logs := ["OA API Error for " ++ pmcid ++ ": " ++
              pyFormat (attrVal err "code") ++ " - " ++ pyFormat err.text],
            dirs := [], fs := [] }
      | none =>
          let article_dir := pathJoin save_dir pmcid
          let links := buildLinks (descFindAll "link" root)
          let st0 : DLState × Bool := ({ logs := [], dirs := [article_dir], fs := [] }, false)
          let st1 :=
            if (linksGet links "pdf").isSome || (linksGet links "xml").isSome then
              directOne article_dir pmcid "xml" "nxml" links env
                (directOne article_dir pmcid "pdf" "pdf" links env st0)
            else st0
          let st2 := tgzStep article_dir pmcid links env st1
          if st2.2 then st2.1
          else st2.1.addLog
            ("No accessible files found for " ++ pmcid ++ " (might not be Open Access).")

/-! ## Concrete documents used to instantiate the theorems -/

/-- Reference entry whose only citation-like sub-node is a
`mixed-citation` carrying text but no child elements. -/
def refTextOnly : XML :=
  el "ref" [] none none [el "mixed-citation" [] (some "Smith 2020.") none []]

/-- Article containing `refTextOnly` and an (empty) `article-meta`. -/
def artTextOnlyRef : XML :=
  el "article" [("article-type", "research-article")] none none
    [el "front" [] none none [el "article-meta" [] none none []],
     el "back" [] none none [refTextOnly]]

/-- Reference entry whose `mixed-citation` has a child element. -/
def refRich : XML :=
  el "ref" [] none none
    [el "mixed-citation" [] (some "Doe ") none [el "i" [] (some "2021.") none []]]

/-- Reference entry with no citation-like sub-node at all. -/
def refBare : XML :=
  el "ref" [] none none [el "label" [] (some "3") none []]

/-- Article with three reference entries: one rich, one text-only, one
bare. -/
def artThreeRefs : XML :=
  el "article" [] none none
    [el "front" [] none none [el "article-meta" [] none none []],
     el "back" [] none none [refRich, refTextOnly, refBare]]

/-- Article whose pmcid node text lacks the `PMC` marker. -/
def artIdBare : XML :=
  el "article" [] none none
    [el "front" [] none none
      [el "article-meta" [] none none
        [el "article-id" [("pub-id-type", "pmcid")] (some "123") none []]]]

/-- Article whose pmcid node text already carries the `PMC` marker. -/
def artIdMarked : XML :=
  el "article" [] none none
    [el "front" [] none none
      [el "article-meta" [] none none
        [el "article-id" [("pub-id-type", "pmcid")] (some "PMC123") none []]]]

/-- Article with an `article-meta` but no pmcid node. -/
def artIdMissing : XML :=
  el "article" [] none none
    [el "front" [] none none [el "article-meta" [] none none []]]

/-- A `pub-date` node holding only a year. -/
def pdYearOnly : XML :=
  el "pub-date" [] none none [el "year" [] (some "2024") none []]

/-- Article whose only `pub-date` child is a year node. -/
def artYearOnly : XML :=
  el "article" [] none none
    [el "front" [] none none
      [el "article-meta" [] none none [pdYearOnly]]]

/-- Article with an `article-meta` and no `pub-date` node. -/
def artNoDate : XML :=
  el "article" [] none none
    [el "front" [] none none [el "article-meta" [] none none []]]

/-- Article node with no `article-meta` descendant. -/
def artNoMeta : XML :=
  el "article" [] none none [el "front" [] none none []]

/-- Fetch root holding one article without and one with `article-meta`. -/
def rootMixed : XML :=
  el "pmc-articleset" [] none none [artNoMeta, artIdBare]

/-- An OA `error` node. -/
def oaErrorNode : XML :=
  el "error" [("code", "idIsNotOpenAccess")] (some "identifier is not Open Access") none []

/-- OA response carrying an `error` node. -/
def oaErrorRoot : XML :=
  el "OA" [] none none [oaErrorNode]

/-- OA response with a single `tgz` link. -/
def oaTgzRoot : XML :=
  el "OA" [] none none
    [el "records" [] none none
      [el "record" [] none none
        [el "link" [("format", "tgz"),
          ("href", "ftp://ftp.ncbi.nlm.nih.gov/pub/pmc/oa_package/ab/cd/PMC1.tar.gz")]
          none none []]]]

/-- Walked files of the concrete archive: two PDFs and one XML. -/
def tgzEntries : List (String × String) :=
  [("downloads/PMC1/PMC1", "main.pdf"), ("downloads/PMC1/PMC1", "extra.PDF"),
   ("downloads/PMC1/PMC1", "doc.nxml")]

/-- Environment of the concrete archive download. -/
def tgzEnv : DLEnv :=
  { oa := .parsed oaTgzRoot, dl := fun _ => .ok, tar := .extracted tgzEntries }

/-- Citation selection as the code actually behaves, stated
declaratively: the first of the `mixed-citation` and `citation`
sub-nodes (in that order) that is present and has at least one child
element; when neither qualifies, the `element-citation` sub-node
(present or not, regardless of its children). -/
def amendedChoice (ref : XML) : Option XML :=
  match (([descFind "mixed-citation" ref,
      descFind "citation" ref].filterMap id).filter (fun x => truthy x)).head? with
  | some x => some x
  | none => descFind "element-citation" ref

/-! ## Theorems -/

/-- Helper: the record produced for an article with an `article-meta`
descendant whose identifier lookup succeeds. -/
theorem processArticle_meta (a meta : XML) (pid : String)
    (hm : descFind "article-meta" a = some meta) (hp : pmcidOf meta = .ok pid) :
    processArticle a = .ok (some
      { pmcid := pid, title := titleOf meta, journal := journalOf a,
        pub_date := pubDateOf a, authors := authorsOf meta,
        pub_type := attrValD a "article-type" "Unknown", abstract := abstractOf meta,
        mesh_terms := keywordsOf meta, references := referencesOf a }) := by
  simp [processArticle, hm, hp]

/-- Helper: the `or`-chain of line 116 coincides with the declarative
description of `amendedChoice`. -/
theorem citationPick_eq_amended (ref : XML) : citationPick ref = amendedChoice ref := by
  unfold citationPick amendedChoice
  cases hm : descFind "mixed-citation" ref with
  | none =>
      cases hc : descFind "citation" ref with
      | none => simp [pyOrE]
      | some c => by_cases ht : truthy c <;> simp [pyOrE, ht]
  | some m =>
      by_cases htm : truthy m
      · simp [pyOrE, htm]
      · cases hc : descFind "citation" ref with
        | none => simp [pyOrE, htm]
        | some c => by_cases ht : truthy c <;> simp [pyOrE, htm, ht]

/-- C1 counterexample: in the article `artTextOnlyRef` the single
reference entry has a `mixed-citation` sub-node whose stripped text is
`"Smith 2020."`, so under the claim the references list would be
`["Smith 2020."]`; the code produces the empty list, because the
text-only node has no children and is therefore falsy in the `or`
chain. -/
theorem references_truthiness_counterexample :
    descFindAll "ref" artTextOnlyRef = [refTextOnly] ∧
    descFind "mixed-citation" refTextOnly =
      some (el "mixed-citation" [] (some "Smith 2020.") none []) ∧
    pyStrip (joinItertext (el "mixed-citation" [] (some "Smith 2020.") none [])) =
      "Smith 2020." ∧
    (∃ r, processArticle artTextOnlyRef = .ok (some r) ∧ r.references = []) :=
  ⟨rfl, rfl, rfl,
   ⟨{ pmcid := "Unknown", title := "No Title", journal := some "Unknown Journal",
      pub_date := "Unknown Date", authors := [], pub_type := "research-article",
      abstract := "No Abstract", mesh_terms := [], references := [] }, rfl, rfl⟩⟩

/-- C1 (amended): for every parsed article, the references list records
the stripped concatenated text of the node chosen per reference entry
as follows: the first of the `mixed-citation` and `citation` sub-nodes
(in that order) that is present and has at least one child element, or
else the `element-citation` sub-node when present; entries for which
no node is chosen (including entries whose only citation-like
sub-nodes are childless `mixed-citation`/`citation` nodes and which
lack `element-citation`) contribute no element. -/
theorem references_selection_amended (a meta : XML) (pid : String)
    (hm : descFind "article-meta" a = some meta) (hp : pmcidOf meta = .ok pid) :
    ∃ r, processArticle a = .ok (some r) ∧
      r.references = (descFindAll "ref" a).filterMap
        (fun ref => (amendedChoice ref).map (fun c => pyStrip (joinItertext c))) := by
  refine ⟨_, processArticle_meta a meta pid hm hp, ?_⟩
  simp [referencesOf, citationPick_eq_amended]

/-- C1 (amended) witness: in an article with a rich reference entry, a
text-only one and a bare one, only the rich entry contributes, and the
references list equals the amended characterization. -/
theorem references_selection_amended_witness :
    (∃ r, processArticle artThreeRefs = .ok (some r) ∧
      r.references = (descFindAll "ref" artThreeRefs).filterMap
        (fun ref => (amendedChoice ref).map (fun c => pyStrip (joinItertext c)))) ∧
    (descFindAll "ref" artThreeRefs).filterMap
      (fun ref => (amendedChoice ref).map (fun c => pyStrip (joinItertext c))) =
      ["Doe 2021."] :=
  ⟨references_selection_amended artThreeRefs (el "article-meta" [] none none [])
    "Unknown" rfl rfl, rfl⟩

/-- Helper: the article loop returns exactly one record per article
having an `article-meta` descendant. -/
theorem parseArticles_length (arts : List XML) (l : List Article)
    (h : parseArticles arts = .ok l) :
    l.length = (arts.filter (fun a => (descFind "article-meta" a).isSome)).length := by
  induction arts generalizing l with
  | nil =>
      simp [parseArticles] at h
      simp [← h]
  | cons a rest ih =>
      unfold parseArticles at h
      cases hm : descFind "article-meta" a with
      | none =>
          have hpa : processArticle a = .ok none := by simp [processArticle, hm]
          rw [hpa] at h
          cases hr : parseArticles rest with
          | error e => rw [hr] at h; cases h
          | ok rs =>
              rw [hr] at h
              injection h with h
              subst h
              simp [hm]
              exact ih _ hr
      | some meta =>
          cases hp : pmcidOf meta with
          | error e =>
              have hpa : processArticle a = .error e := by simp [processArticle, hm, hp]
              rw [hpa] at h; cases h
          | ok pid =>
              have hpa := processArticle_meta a meta pid hm hp
              rw [hpa] at h
              cases hr : parseArticles rest with
              | error e => rw [hr] at h; cases h
              | ok rs =>
                  rw [hr] at h
                  injection h with h
                  subst h
                  simp [hm]
                  exact ih _ hr

/-- C9: in `get_pmc_metadata`, an article node with no `article-meta`
descendant produces no record at all, and the returned list has
exactly one record per article that does have one. -/
theorem article_meta_required :
    (∀ a, descFind "article-meta" a = none → processArticle a = .ok none) ∧
    (∀ (ids : List String) (root : XML) (l : List Article), ids ≠ [] →
      get_pmc_metadata ids (.parsed root) = .ok l →
      l.length = ((descFindAll "article" root).filter
        (fun a => (descFind "article-meta" a).isSome)).length) := by
  constructor
  · intro a hm
    simp [processArticle, hm]
  · intro ids root l hne h
    have hempty : ids.isEmpty = false := by
      cases ids with
      | nil => exact absurd rfl hne
      | cons x xs => rfl
    rw [get_pmc_metadata, hempty] at h
    exact parseArticles_length _ _ h

/-- C9 witness: a fetch root with one meta-less article and one normal
article yields exactly one record. -/
theorem article_meta_required_witness :
    processArticle artNoMeta = .ok none ∧
    ([] : List Article).length + 1 =
      ((descFindAll "article" rootMixed).filter
        (fun a => (descFind "article-meta" a).isSome)).length :=
  ⟨article_meta_required.1 artNoMeta rfl,
   by
    have := article_meta_required.2 ["1"] rootMixed
      [{ pmcid := "PMC123", title := "No Title", journal := some "Unknown Journal",
         pub_date := "Unknown Date", authors := [], pub_type := "Unknown",
         abstract := "No Abstract", mesh_terms := [], references := [] }]
      (by simp) rfl
    simpa using this⟩

/-- C2: in `get_pmc_metadata`, the canonical identifier of a parsed
article carries the `PMC` marker exactly as the source normalizes it:
a pmcid node text already starting with `"PMC"` is returned unchanged,
any other text gets `"PMC"` prepended (so `"123"` becomes `"PMC123"`),
and a missing node yields the placeholder `"Unknown"`. -/
theorem pmcid_normalization (a meta : XML)
    (hm : descFind "article-meta" a = some meta) :
    (∀ node t, descFindAttr "article-id" "pub-id-type" "pmcid" meta = some node →
      node.text = some t →
      (strStarts t "PMC" = true →
        ∃ r, processArticle a = .ok (some r) ∧ r.pmcid = t) ∧
      (strStarts t "PMC" = false →
        ∃ r, processArticle a = .ok (some r) ∧ r.pmcid = "PMC" ++ t)) ∧
    (descFindAttr "article-id" "pub-id-type" "pmcid" meta = none →
      ∃ r, processArticle a = .ok (some r) ∧ r.pmcid = "Unknown") := by
  constructor
  · intro node t hn ht
    constructor <;> intro hs
    · exact ⟨_, processArticle_meta a meta t hm (by simp [pmcidOf, hn, ht, hs]), rfl⟩
    · exact ⟨_, processArticle_meta a meta ("PMC" ++ t) hm
        (by simp [pmcidOf, hn, ht, hs]), rfl⟩
  · intro hn
    exact ⟨_, processArticle_meta a meta "Unknown" hm (by simp [pmcidOf, hn]), rfl⟩

/-- C2 witness: the three normalization cases at concrete articles. -/
theorem pmcid_normalization_witness :
    (∃ r, processArticle artIdBare = .ok (some r) ∧ r.pmcid = "PMC" ++ "123") ∧
    (∃ r, processArticle artIdMarked = .ok (some r) ∧ r.pmcid = "PMC123") ∧
    (∃ r, processArticle artIdMissing = .ok (some r) ∧ r.pmcid = "Unknown") :=
  ⟨((pmcid_normalization artIdBare _ rfl).1 _ "123" rfl rfl).2 rfl,
   ((pmcid_normalization artIdMarked _ rfl).1 _ "PMC123" rfl rfl).1 rfl,
   (pmcid_normalization artIdMissing _ rfl).2 rfl⟩

/-- C3: in `get_pmc_metadata`, the publication date of a parsed article
comes from the year/month/day children of the first `pub-date`
descendant with `"01"` defaults for month and day (a node holding only
a year `yt` gives `yt ++ "-01-01"`), an absent year gives an empty
leading segment, and an absent `pub-date` node gives the placeholder
`"Unknown Date"`. -/
theorem pub_date_defaults (a meta : XML) (pid : String)
    (hm : descFind "article-meta" a = some meta)
    (hp : pmcidOf meta = .ok pid) :
    (∀ pd, descFind "pub-date" a = some pd →
      ∃ r, processArticle a = .ok (some r) ∧
        r.pub_date = dateSeg (childFind "year" pd) "" ++ "-" ++
          dateSeg (childFind "month" pd) "01" ++ "-" ++
          dateSeg (childFind "day" pd) "01" ∧
        (∀ y yt, childFind "year" pd = some y → y.text = some yt →
          childFind "month" pd = none → childFind "day" pd = none →
          r.pub_date = yt ++ "-01-01") ∧
        (childFind "year" pd = none →
          r.pub_date = "-" ++ dateSeg (childFind "month" pd) "01" ++ "-" ++
            dateSeg (childFind "day" pd) "01")) ∧
    (descFind "pub-date" a = none →
      ∃ r, processArticle a = .ok (some r) ∧ r.pub_date = "Unknown Date") := by
  constructor
  · intro pd hd
    refine ⟨_, processArticle_meta a meta pid hm hp, ?_, ?_, ?_⟩
    · simp [pubDateOf, hd]
    · intro y yt hy hyt hmo hda
      simp [pubDateOf, hd, hy, hyt, hmo, hda, dateSeg, pyFormat, String.append_assoc]
    · intro hy
      simp [pubDateOf, hd, hy, dateSeg]
  · intro hd
    exact ⟨_, processArticle_meta a meta pid hm hp, by simp [pubDateOf, hd]⟩

/-- C3 witness: a `pub-date` holding only `<year>2024</year>` yields
`"2024-01-01"`, and an article without `pub-date` yields the
placeholder. -/
theorem pub_date_defaults_witness :
    (∃ r, processArticle artYearOnly = .ok (some r) ∧
      r.pub_date = dateSeg (childFind "year" pdYearOnly) "" ++ "-" ++
        dateSeg (childFind "month" pdYearOnly) "01" ++ "-" ++
        dateSeg (childFind "day" pdYearOnly) "01" ∧
      (∀ y yt, childFind "year" pdYearOnly = some y → y.text = some yt →
        childFind "month" pdYearOnly = none → childFind "day" pdYearOnly = none →
        r.pub_date = yt ++ "-01-01") ∧
      (childFind "year" pdYearOnly = none →
        r.pub_date = "-" ++ dateSeg (childFind "month" pdYearOnly) "01" ++ "-" ++
          dateSeg (childFind "day" pdYearOnly) "01")) ∧
    (∃ r, processArticle artNoDate = .ok (some r) ∧ r.pub_date = "Unknown Date") :=
  ⟨(pub_date_defaults artYearOnly _ "Unknown" rfl rfl).1 pdYearOnly rfl,
   (pub_date_defaults artNoDate _ "Unknown" rfl rfl).2 rfl⟩

/-- C5: a response of the open-access service carrying an `error` node
makes `download_article_files` log the service code and message and
return normally: no file is written and no directory is created. -/
theorem oa_error_node_no_files (pmcid save_dir : String) (env : DLEnv)
    (root err : XML) (hoa : env.oa = .parsed root)
    (herr : descFind "error" root = some err) :
    download_article_files pmcid save_dir env =
      { logs := ["OA API Error for " ++ pmcid ++ ": " ++
          pyFormat (attrVal err "code") ++ " - " ++ pyFormat err.text],
        dirs := [], fs := [] } := by
  simp [download_article_files, hoa, herr]

/-- C5 witness: the error-node path at a concrete response. -/
theorem oa_error_node_no_files_witness :
    download_article_files "PMC9" "downloads"
      { oa := .parsed oaErrorRoot, dl := fun _ => .ok, tar := .tarError "n" } =
      { logs := ["OA API Error for " ++ "PMC9" ++ ": " ++
          pyFormat (attrVal oaErrorNode "code") ++ " - " ++ pyFormat oaErrorNode.text],
        dirs := [], fs := [] } :=
  oa_error_node_no_files "PMC9" "downloads" _ oaErrorRoot oaErrorNode rfl rfl

/-- C7: a transport failure while querying the open-access service
makes `download_article_files` log the error and return normally,
writing nothing and raising nothing. -/
theorem oa_transport_error_returns (pmcid save_dir msg : String) (env : DLEnv)
    (hoa : env.oa = .transportError msg) :
    download_article_files pmcid save_dir env =
      { logs := ["Error querying OA API for " ++ pmcid ++ ": " ++ msg],
        dirs := [], fs := [] } := by
  simp [download_article_files, hoa]

/-- C7 witness: the transport-error path at a concrete environment. -/
theorem oa_transport_error_returns_witness :
    download_article_files "PMC9" "downloads"
      { oa := .transportError "connection refused", dl := fun _ => .ok,
        tar := .tarError "n" } =
      { logs := ["Error querying OA API for " ++ "PMC9" ++ ": " ++ "connection refused"],
        dirs := [], fs := [] } :=
  oa_transport_error_returns "PMC9" "downloads" "connection refused" _ rfl

/-- C8: `search_pmc` returns the `idlist` field of `esearchresult`
verbatim and in order, and a response without an `esearchresult` field
yields the empty list instead of an error. -/
theorem search_idlist_extraction :
    (∀ (ids : List JSON) (inner rest : List (String × JSON)),
      search_pmc_extract
        (.obj (rest ++ [("esearchresult", .obj (inner ++ [("idlist", .arr ids)]))])) =
        .ok (.arr ids)) ∧
    (∀ fields : List (String × JSON), (∀ p ∈ fields, p.1 ≠ "esearchresult") →
      search_pmc_extract (.obj fields) = .ok (.arr [])) := by
  constructor
  · intro ids inner rest
    simp [search_pmc_extract, jget, jlookup, List.filter_append]
  · intro fields h
    have : fields.filter (fun p => p.1 == "esearchresult") = [] := by
      rw [List.filter_eq_nil_iff]
      intro p hp
      simpa using h p hp
    simp [search_pmc_extract, jget, jlookup, this]

/-- C8 witness: the two response shapes at concrete values. -/
theorem search_idlist_extraction_witness :
    search_pmc_extract
      (.obj ([] ++ [("esearchresult", .obj ([] ++ [("idlist", .arr [.str "123", .str "456"])]))])) =
      .ok (.arr [.str "123", .str "456"]) ∧
    search_pmc_extract (.obj [("header", .null)]) = .ok (.arr []) :=
  ⟨search_idlist_extraction.1 [.str "123", .str "456"] [] [],
   search_idlist_extraction.2 [("header", .null)] (by simp)⟩

/-- C10: `search_pmc` substitutes the default 15-day window only when
both `mindate` and `maxdate` are `None`; when exactly one is supplied
the other remains unset and no default is applied. -/
theorem date_window_only_when_both_none (term : String) (maxr : Nat)
    (s t : String) (now : Date) :
    ((search_pmc_params term maxr (some s) none now).mindate = some s ∧
     (search_pmc_params term maxr (some s) none now).maxdate = none) ∧
    ((search_pmc_params term maxr none (some t) now).mindate = none ∧
     (search_pmc_params term maxr none (some t) now).maxdate = some t) ∧
    ((search_pmc_params term maxr (some s) (some t) now).mindate = some s ∧
     (search_pmc_params term maxr (some s) (some t) now).maxdate = some t) := by
  simp [search_pmc_params]

/-- Helper: membership in `fsInsert`. -/
theorem mem_fsInsert (fs : List String) (p x : String) :
    x ∈ fsInsert fs p ↔ x = p ∨ x ∈ fs := by
  unfold fsInsert
  split_ifs with h
  · constructor
    · exact Or.inr
    · rintro (rfl | hx)
      exacts [h, hx]
  · simp [List.mem_cons]

/-- Helper: membership in `fsErase`. -/
theorem mem_fsErase (fs : List String) (p x : String) :
    x ∈ fsErase fs p ↔ x ∈ fs ∧ x ≠ p := by
  simp [fsErase, List.mem_filter, bne_iff_ne]

/-- Helper: membership in `fsInsertAll`. -/
theorem mem_fsInsertAll (ps fs : List String) (x : String) :
    x ∈ fsInsertAll fs ps ↔ x ∈ fs ∨ x ∈ ps := by
  induction ps generalizing fs with
  | nil => simp [fsInsertAll]
  | cons p rest ih =>
      have h0 : fsInsertAll fs (p :: rest) = fsInsertAll (fsInsert fs p) rest := rfl
      rw [h0, ih, mem_fsInsert]
      simp [List.mem_cons]
      tauto

/-- Helper: a path outside the file set that is neither canonical
target is still outside after the rename scan. -/
theorem renameLoop_not_target (d p : String) (entries : List (String × String))
    (fs logs : List String) (x : String) (hx : x ∉ fs)
    (hP : x ≠ pathJoin d (p ++ ".pdf")) (hN : x ≠ pathJoin d (p ++ ".nxml")) :
    x ∉ (renameLoop d p entries fs logs).1 := by
  induction entries generalizing fs logs with
  | nil => simpa [renameLoop] using hx
  | cons e rest ih =>
      obtain ⟨d0, f0⟩ := e
      rw [renameLoop]
      split_ifs with h1 h2 h3 h4
      · exact ih fs logs hx
      · refine ih _ _ ?_
        rw [mem_fsInsert, mem_fsErase]
        rintro (rfl | ⟨hxf, -⟩)
        exacts [hP rfl, hx hxf]
      · exact ih fs logs hx
      · refine ih _ _ ?_
        rw [mem_fsInsert, mem_fsErase]
        rintro (rfl | ⟨hxf, -⟩)
        exacts [hN rfl, hx hxf]
      · exact ih fs logs hx

/-- Helper: a path in the file set that no walked entry carries is
preserved by the rename scan. -/
theorem renameLoop_keeps (d p : String) (entries : List (String × String))
    (fs logs : List String) (x : String) (hx : x ∈ fs)
    (hne : ∀ e ∈ entries, entryPath e ≠ x) :
    x ∈ (renameLoop d p entries fs logs).1 := by
  induction entries generalizing fs logs with
  | nil => simpa [renameLoop] using hx
  | cons e rest ih =>
      obtain ⟨d0, f0⟩ := e
      have hhd : entryPath (d0, f0) ≠ x := hne _ (List.mem_cons_self _ _)
      have hrest : ∀ e ∈ rest, entryPath e ≠ x :=
        fun e he => hne e (List.mem_cons_of_mem _ he)
      rw [renameLoop]
      split_ifs with h1 h2 h3 h4
      · exact ih fs logs hx hrest
      · refine ih _ _ ?_ hrest
        rw [mem_fsInsert, mem_fsErase]
        exact Or.inr ⟨hx, fun hh => hhd (by simpa [entryPath] using hh.symm)⟩
      · exact ih fs logs hx hrest
      · refine ih _ _ ?_ hrest
        rw [mem_fsInsert, mem_fsErase]
        exact Or.inr ⟨hx, fun hh => hhd (by simpa [entryPath] using hh.symm)⟩
      · exact ih fs logs hx hrest

/-- Helper: when the canonical PDF target already exists, the scan
touches no PDF-classified entry and the target persists. -/
theorem renameLoop_pdf_stable (d p : String) (entries : List (String × String))
    (fs logs : List String)
    (hpair : entries.Pairwise (fun a b => entryPath a ≠ entryPath b))
    (hmem : ∀ e ∈ entries, entryPath e ∈ fs)
    (hneP : ∀ e ∈ entries, entryPath e ≠ pathJoin d (p ++ ".pdf"))
    (hneN : ∀ e ∈ entries, entryPath e ≠ pathJoin d (p ++ ".nxml"))
    (hP : pathJoin d (p ++ ".pdf") ∈ fs) :
    pathJoin d (p ++ ".pdf") ∈ (renameLoop d p entries fs logs).1 ∧
    ∀ e ∈ entries, isPdfName e.2 → entryPath e ∈ (renameLoop d p entries fs logs).1 := by
  induction entries generalizing fs logs with
  | nil => exact ⟨by simpa [renameLoop] using hP, by simp⟩
  | cons e rest ih =>
      obtain ⟨d0, f0⟩ := e
      have hhdP : entryPath (d0, f0) ≠ pathJoin d (p ++ ".pdf") :=
        hneP _ (List.mem_cons_self _ _)
      have hhdN : entryPath (d0, f0) ≠ pathJoin d (p ++ ".nxml") :=
        hneN _ (List.mem_cons_self _ _)
      have hrest := List.pairwise_cons.mp hpair
      have hmemr : ∀ e ∈ rest, entryPath e ∈ fs :=
        fun e he => hmem e (List.mem_cons_of_mem _ he)
      have hnePr : ∀ e ∈ rest, entryPath e ≠ pathJoin d (p ++ ".pdf") :=
        fun e he => hneP e (List.mem_cons_of_mem _ he)
      have hneNr : ∀ e ∈ rest, entryPath e ≠ pathJoin d (p ++ ".nxml") :=
        fun e he => hneN e (List.mem_cons_of_mem _ he)
      rw [renameLoop]
      split_ifs with h1 h2 h3
      · -- head is a PDF; the target is already present, so it is skipped
        have := ih fs logs hrest.2 hmemr hnePr hneNr hP
        refine ⟨this.1, ?_⟩
        intro e he hpdf
        rcases List.mem_cons.mp he with rfl | he2
        · exact renameLoop_keeps d p rest fs logs _
            (hmem _ (List.mem_cons_self _ _)) (fun f hf => (hrest.1 f hf).symm)
        · exact this.2 e he2 hpdf
      · -- head is an XML and the nxml target exists: skipped
        have := ih fs logs hrest.2 hmemr hnePr hneNr hP
        refine ⟨this.1, ?_⟩
        intro e he hpdf
        rcases List.mem_cons.mp he with rfl | he2
        · exact absurd hpdf (by simpa using h1)
        · exact this.2 e he2 hpdf
      · -- head is an XML and gets renamed: the file set changes but the
        -- PDF target and all PDF entries survive
        have hP2 : pathJoin d (p ++ ".pdf") ∈
            fsInsert (fsErase fs (pathJoin d0 f0)) (pathJoin d (p ++ ".nxml")) := by
          rw [mem_fsInsert, mem_fsErase]
          exact Or.inr ⟨hP, fun hh => hhdP (by simpa [entryPath] using hh.symm)⟩
        have hmem2 : ∀ e ∈ rest, entryPath e ∈
            fsInsert (fsErase fs (pathJoin d0 f0)) (pathJoin d (p ++ ".nxml")) := by
          intro e he
          rw [mem_fsInsert, mem_fsErase]
          exact Or.inr ⟨hmemr e he, fun hh => (hrest.1 e he) (by simpa [entryPath] using hh.symm)⟩
        have := ih _ (logs ++ ["Renamed " ++ f0 ++ " to " ++ p ++ ".nxml"])
          hrest.2 hmem2 hnePr hneNr hP2
        refine ⟨this.1, ?_⟩
        intro e he hpdf
        rcases List.mem_cons.mp he with rfl | he2
        · exact absurd hpdf (by simpa using h1)
        · exact this.2 e he2 hpdf
      · -- head matches neither extension
        have := ih fs logs hrest.2 hmemr hnePr hneNr hP
        refine ⟨this.1, ?_⟩
        intro e he hpdf
        rcases List.mem_cons.mp he with rfl | he2
        · exact absurd hpdf (by simpa using h1)
        · exact this.2 e he2 hpdf

/-- Helper: the canonical PDF and XML target paths differ. -/
theorem targets_ne (d p : String) :
    pathJoin d (p ++ ".pdf") ≠ pathJoin d (p ++ ".nxml") := by
  intro h
  have hlen := congrArg String.length h
  have h1 : (".pdf" : String).length = 4 := rfl
  have h2 : (".nxml" : String).length = 5 := rfl
  have h3 : ("/" : String).length = 1 := rfl
  simp only [pathJoin, String.length_append, h1, h2, h3] at hlen
  omega

/-- Helper: when the canonical XML target already exists, the scan
touches no XML-classified entry and the target persists. -/
theorem renameLoop_xml_stable (d p : String) (entries : List (String × String))
    (fs logs : List String)
    (hpair : entries.Pairwise (fun a b => entryPath a ≠ entryPath b))
    (hmem : ∀ e ∈ entries, entryPath e ∈ fs)
    (hneP : ∀ e ∈ entries, entryPath e ≠ pathJoin d (p ++ ".pdf"))
    (hneN : ∀ e ∈ entries, entryPath e ≠ pathJoin d (p ++ ".nxml"))
    (hN : pathJoin d (p ++ ".nxml") ∈ fs) :
    pathJoin d (p ++ ".nxml") ∈ (renameLoop d p entries fs logs).1 ∧
    ∀ e ∈ entries, isXmlName e.2 → entryPath e ∈ (renameLoop d p entries fs logs).1 := by
  induction entries generalizing fs logs with
  | nil => exact ⟨by simpa [renameLoop] using hN, by simp⟩
  | cons e rest ih =>
      obtain ⟨d0, f0⟩ := e
      have hhdP : entryPath (d0, f0) ≠ pathJoin d (p ++ ".pdf") :=
        hneP _ (List.mem_cons_self _ _)
      have hhdN : entryPath (d0, f0) ≠ pathJoin d (p ++ ".nxml") :=
        hneN _ (List.mem_cons_self _ _)
      have hrest := List.pairwise_cons.mp hpair
      have hmemr : ∀ e ∈ rest, entryPath e ∈ fs :=
        fun e he => hmem e (List.mem_cons_of_mem _ he)
      have hnePr : ∀ e ∈ rest, entryPath e ≠ pathJoin d (p ++ ".pdf") :=
        fun e he => hneP e (List.mem_cons_of_mem _ he)
      have hneNr : ∀ e ∈ rest, entryPath e ≠ pathJoin d (p ++ ".nxml") :=
        fun e he => hneN e (List.mem_cons_of_mem _ he)
      rw [renameLoop]
      split_ifs with h1 h2 h3
      · -- head is a PDF and the pdf target exists: skipped
        have := ih fs logs hrest.2 hmemr hnePr hneNr hN
        refine ⟨this.1, ?_⟩
        intro e he hxml
        rcases List.mem_cons.mp he with rfl | he2
        · exact absurd hxml (by simp [isXmlName, h1])
        · exact this.2 e he2 hxml
      · -- head is a PDF and gets renamed: the XML target and all XML
        -- entries survive the file-set change
        have hN2 : pathJoin d (p ++ ".nxml") ∈
            fsInsert (fsErase fs (pathJoin d0 f0)) (pathJoin d (p ++ ".pdf")) := by
          rw [mem_fsInsert, mem_fsErase]
          exact Or.inr ⟨hN, fun hh => hhdN (by simpa [entryPath] using hh.symm)⟩
        have hmem2 : ∀ e ∈ rest, entryPath e ∈
            fsInsert (fsErase fs (pathJoin d0 f0)) (pathJoin d (p ++ ".pdf")) := by
          intro e he
          rw [mem_fsInsert, mem_fsErase]
          exact Or.inr ⟨hmemr e he, fun hh => (hrest.1 e he) (by simpa [entryPath] using hh.symm)⟩
        have := ih _ (logs ++ ["Renamed " ++ f0 ++ " to " ++ p ++ ".pdf"])
          hrest.2 hmem2 hnePr hneNr hN2
        refine ⟨this.1, ?_⟩
        intro e he hxml
        rcases List.mem_cons.mp he with rfl | he2
        · exact absurd hxml (by simp [isXmlName, h1])
        · exact this.2 e he2 hxml
      · -- head is an XML; the nxml target is already present, so it is
        -- skipped
        have := ih fs logs hrest.2 hmemr hnePr hneNr hN
        refine ⟨this.1, ?_⟩
        intro e he hxml
        rcases List.mem_cons.mp he with rfl | he2
        · exact renameLoop_keeps d p rest fs logs _
            (hmem _ (List.mem_cons_self _ _)) (fun f hf => (hrest.1 f hf).symm)
        · exact this.2 e he2 hxml
      · -- head matches neither extension
        have := ih fs logs hrest.2 hmemr hnePr hneNr hN
        refine ⟨this.1, ?_⟩
        intro e he hxml
        rcases List.mem_cons.mp he with rfl | he2
        · exact absurd hxml (by simpa using h3)
        · exact this.2 e he2 hxml

/-- Helper: when the canonical PDF target does not exist yet, the
first PDF-classified entry (if any) is renamed to it, and every later
PDF-classified entry is left in place. -/
theorem renameLoop_pdf_first (d p : String) (entries : List (String × String))
    (fs logs : List String)
    (hpair : entries.Pairwise (fun a b => entryPath a ≠ entryPath b))
    (hmem : ∀ e ∈ entries, entryPath e ∈ fs)
    (hneP : ∀ e ∈ entries, entryPath e ≠ pathJoin d (p ++ ".pdf"))
    (hneN : ∀ e ∈ entries, entryPath e ≠ pathJoin d (p ++ ".nxml"))
    (hP : pathJoin d (p ++ ".pdf") ∉ fs) :
    (entries.find? (fun e => isPdfName e.2) = none →
      pathJoin d (p ++ ".pdf") ∉ (renameLoop d p entries fs logs).1) ∧
    (∀ e0, entries.find? (fun e => isPdfName e.2) = some e0 →
      pathJoin d (p ++ ".pdf") ∈ (renameLoop d p entries fs logs).1 ∧
      entryPath e0 ∉ (renameLoop d p entries fs logs).1 ∧
      ∀ e ∈ entries, isPdfName e.2 → entryPath e ≠ entryPath e0 →
        entryPath e ∈ (renameLoop d p entries fs logs).1) := by
  induction entries generalizing fs logs with
  | nil =>
      refine ⟨fun _ => by simpa [renameLoop] using hP, fun e0 he0 => by simp at he0⟩
  | cons e rest ih =>
      obtain ⟨d0, f0⟩ := e
      have hhdP : entryPath (d0, f0) ≠ pathJoin d (p ++ ".pdf") :=
        hneP _ (List.mem_cons_self _ _)
      have hhdN : entryPath (d0, f0) ≠ pathJoin d (p ++ ".nxml") :=
        hneN _ (List.mem_cons_self _ _)
      have hrest := List.pairwise_cons.mp hpair
      have hmemr : ∀ e ∈ rest, entryPath e ∈ fs :=
        fun e he => hmem e (List.mem_cons_of_mem _ he)
      have hnePr : ∀ e ∈ rest, entryPath e ≠ pathJoin d (p ++ ".pdf") :=
        fun e he => hneP e (List.mem_cons_of_mem _ he)
      have hneNr : ∀ e ∈ rest, entryPath e ≠ pathJoin d (p ++ ".nxml") :=
        fun e he => hneN e (List.mem_cons_of_mem _ he)
      rw [renameLoop]
      split_ifs with h1 h2 h3
      · -- head is the first PDF and is renamed to the target
        have hfind : List.find? (fun e => isPdfName e.2) ((d0, f0) :: rest) =
            some (d0, f0) := List.find?_cons_of_pos _ (by simpa using h1)
        have hPin : pathJoin d (p ++ ".pdf") ∈
            fsInsert (fsErase fs (pathJoin d0 f0)) (pathJoin d (p ++ ".pdf")) := by
          rw [mem_fsInsert]
          exact Or.inl rfl
        have hmem2 : ∀ e ∈ rest, entryPath e ∈
            fsInsert (fsErase fs (pathJoin d0 f0)) (pathJoin d (p ++ ".pdf")) := by
          intro e he
          rw [mem_fsInsert, mem_fsErase]
          exact Or.inr ⟨hmemr e he, fun hh => (hrest.1 e he) (by simpa [entryPath] using hh.symm)⟩
        refine ⟨fun hnone => ?_, fun e0 he0 => ?_⟩
        · rw [hfind] at hnone; cases hnone
        · rw [hfind] at he0
          injection he0 with he0
          subst he0
          refine ⟨?_, ?_, ?_⟩
          · exact renameLoop_keeps d p rest _ _ _ hPin (fun f hf => hnePr f hf)
          · refine renameLoop_not_target d p rest _ _ _ ?_ hhdP hhdN
            rw [mem_fsInsert, mem_fsErase]
            rintro (hh | ⟨-, hh⟩)
            exacts [hhdP (by simpa [entryPath] using hh), hh rfl]
          · intro e he hpdf hne0
            rcases List.mem_cons.mp he with rfl | he2
            · exact absurd rfl hne0
            · exact (renameLoop_pdf_stable d p rest _ _ hrest.2 hmem2 hnePr hneNr hPin).2
                e he2 hpdf
      · -- head is an XML whose target exists: skipped
        have hfind : List.find? (fun e => isPdfName e.2) ((d0, f0) :: rest) =
            List.find? (fun e => isPdfName e.2) rest :=
          List.find?_cons_of_neg _ (by simpa using h1)
        have IH := ih fs logs hrest.2 hmemr hnePr hneNr hP
        refine ⟨fun hnone => ?_, fun e0 he0 => ?_⟩
        · rw [hfind] at hnone; exact IH.1 hnone
        · rw [hfind] at he0
          obtain ⟨a, b, c⟩ := IH.2 e0 he0
          refine ⟨a, b, ?_⟩
          intro e he hpdf hne0
          rcases List.mem_cons.mp he with rfl | he2
          · exact absurd hpdf (by simpa using h1)
          · exact c e he2 hpdf hne0
      · -- head is an XML that gets renamed: the pdf-related facts are
        -- unchanged on the updated file set
        have hfind : List.find? (fun e => isPdfName e.2) ((d0, f0) :: rest) =
            List.find? (fun e => isPdfName e.2) rest :=
          List.find?_cons_of_neg _ (by simpa using h1)
        have hP2 : pathJoin d (p ++ ".pdf") ∉
            fsInsert (fsErase fs (pathJoin d0 f0)) (pathJoin d (p ++ ".nxml")) := by
          rw [mem_fsInsert, mem_fsErase]
          rintro (hh | ⟨hh, -⟩)
          exacts [targets_ne d p hh, hP hh]
        have hmem2 : ∀ e ∈ rest, entryPath e ∈
            fsInsert (fsErase fs (pathJoin d0 f0)) (pathJoin d (p ++ ".nxml")) := by
          intro e he
          rw [mem_fsInsert, mem_fsErase]
          exact Or.inr ⟨hmemr e he, fun hh => (hrest.1 e he) (by simpa [entryPath] using hh.symm)⟩
        have IH := ih _ (logs ++ ["Renamed " ++ f0 ++ " to " ++ p ++ ".nxml"])
          hrest.2 hmem2 hnePr hneNr hP2
        refine ⟨fun hnone => ?_, fun e0 he0 => ?_⟩
        · rw [hfind] at hnone; exact IH.1 hnone
        · rw [hfind] at he0
          obtain ⟨a, b, c⟩ := IH.2 e0 he0
          refine ⟨a, b, ?_⟩
          intro e he hpdf hne0
          rcases List.mem_cons.mp he with rfl | he2
          · exact absurd hpdf (by simpa using h1)
          · exact c e he2 hpdf hne0
      · -- head matches neither extension: skipped
        have hfind : List.find? (fun e => isPdfName e.2) ((d0, f0) :: rest) =
            List.find? (fun e => isPdfName e.2) rest :=
          List.find?_cons_of_neg _ (by simpa using h1)
        have IH := ih fs logs hrest.2 hmemr hnePr hneNr hP
        refine ⟨fun hnone => ?_, fun e0 he0 => ?_⟩
        · rw [hfind] at hnone; exact IH.1 hnone
        · rw [hfind] at he0
          obtain ⟨a, b, c⟩ := IH.2 e0 he0
          refine ⟨a, b, ?_⟩
          intro e he hpdf hne0
          rcases List.mem_cons.mp he with rfl | he2
          · exact absurd hpdf (by simpa using h1)
          · exact c e he2 hpdf hne0

/-- Helper: when the canonical XML target does not exist yet, the
first XML-classified entry (if any) is renamed to it, and every later
XML-classified entry is left in place. -/
theorem renameLoop_xml_first (d p : String) (entries : List (String × String))
    (fs logs : List String)
    (hpair : entries.Pairwise (fun a b => entryPath a ≠ entryPath b))
    (hmem : ∀ e ∈ entries, entryPath e ∈ fs)
    (hneP : ∀ e ∈ entries, entryPath e ≠ pathJoin d (p ++ ".pdf"))
    (hneN : ∀ e ∈ entries, entryPath e ≠ pathJoin d (p ++ ".nxml"))
    (hN : pathJoin d (p ++ ".nxml") ∉ fs) :
    (entries.find? (fun e => isXmlName e.2) = none →
      pathJoin d (p ++ ".nxml") ∉ (renameLoop d p entries fs logs).1) ∧
    (∀ e0, entries.find? (fun e => isXmlName e.2) = some e0 →
      pathJoin d (p ++ ".nxml") ∈ (renameLoop d p entries fs logs).1 ∧
      entryPath e0 ∉ (renameLoop d p entries fs logs).1 ∧
      ∀ e ∈ entries, isXmlName e.2 → entryPath e ≠ entryPath e0 →
        entryPath e ∈ (renameLoop d p entries fs logs).1) := by
  induction entries generalizing fs logs with
  | nil =>
      refine ⟨fun _ => by simpa [renameLoop] using hN, fun e0 he0 => by simp at he0⟩
  | cons e rest ih =>
      obtain ⟨d0, f0⟩ := e
      have hhdP : entryPath (d0, f0) ≠ pathJoin d (p ++ ".pdf") :=
        hneP _ (List.mem_cons_self _ _)
      have hhdN : entryPath (d0, f0) ≠ pathJoin d (p ++ ".nxml") :=
        hneN _ (List.mem_cons_self _ _)
      have hrest := List.pairwise_cons.mp hpair
      have hmemr : ∀ e ∈ rest, entryPath e ∈ fs :=
        fun e he => hmem e (List.mem_cons_of_mem _ he)
      have hnePr : ∀ e ∈ rest, entryPath e ≠ pathJoin d (p ++ ".pdf") :=
        fun e he => hneP e (List.mem_cons_of_mem _ he)
      have hneNr : ∀ e ∈ rest, entryPath e ≠ pathJoin d (p ++ ".nxml") :=
        fun e he => hneN e (List.mem_cons_of_mem _ he)
      have hfind : List.find? (fun e => isXmlName e.2) ((d0, f0) :: rest) =
          (if isXmlName f0 then some (d0, f0)
           else List.find? (fun e => isXmlName e.2) rest) := by
        by_cases hx : isXmlName f0
        · rw [if_pos hx]
          exact List.find?_cons_of_pos _ (by simpa using hx)
        · rw [if_neg hx]
          exact List.find?_cons_of_neg _ (by simpa using hx)
      rw [renameLoop]
      split_ifs with h1 h2 h3
      · -- head is a PDF whose target exists: skipped
        have hx0 : isXmlName f0 = false := by simp [isXmlName, h1]
        rw [hx0] at hfind
        simp only [Bool.false_eq_true, if_false] at hfind
        have IH := ih fs logs hrest.2 hmemr hnePr hneNr hN
        refine ⟨fun hnone => ?_, fun e0 he0 => ?_⟩
        · rw [hfind] at hnone; exact IH.1 hnone
        · rw [hfind] at he0
          obtain ⟨a, b, c⟩ := IH.2 e0 he0
          refine ⟨a, b, ?_⟩
          intro e he hxml hne0
          rcases List.mem_cons.mp he with rfl | he2
          · exact absurd hxml (by simp [isXmlName, h1])
          · exact c e he2 hxml hne0
      · -- head is a PDF that gets renamed: the nxml-related facts are
        -- unchanged on the updated file set
        have hx0 : isXmlName f0 = false := by simp [isXmlName, h1]
        rw [hx0] at hfind
        simp only [Bool.false_eq_true, if_false] at hfind
        have hN2 : pathJoin d (p ++ ".nxml") ∉
            fsInsert (fsErase fs (pathJoin d0 f0)) (pathJoin d (p ++ ".pdf")) := by
          rw [mem_fsInsert, mem_fsErase]
          rintro (hh | ⟨hh, -⟩)
          exacts [targets_ne d p hh.symm, hN hh]
        have hmem2 : ∀ e ∈ rest, entryPath e ∈
            fsInsert (fsErase fs (pathJoin d0 f0)) (pathJoin d (p ++ ".pdf")) := by
          intro e he
          rw [mem_fsInsert, mem_fsErase]
          exact Or.inr ⟨hmemr e he, fun hh => (hrest.1 e he) (by simpa [entryPath] using hh.symm)⟩
        have IH := ih _ (logs ++ ["Renamed " ++ f0 ++ " to " ++ p ++ ".pdf"])
          hrest.2 hmem2 hnePr hneNr hN2
        refine ⟨fun hnone => ?_, fun e0 he0 => ?_⟩
        · rw [hfind] at hnone; exact IH.1 hnone
        · rw [hfind] at he0
          obtain ⟨a, b, c⟩ := IH.2 e0 he0
          refine ⟨a, b, ?_⟩
          intro e he hxml hne0
          rcases List.mem_cons.mp he with rfl | he2
          · exact absurd hxml (by simp [isXmlName, h1])
          · exact c e he2 hxml hne0
      · -- head is the first XML and is renamed to the target
        rw [if_pos h3] at hfind
        have hNin : pathJoin d (p ++ ".nxml") ∈
            fsInsert (fsErase fs (pathJoin d0 f0)) (pathJoin d (p ++ ".nxml")) := by
          rw [mem_fsInsert]
          exact Or.inl rfl
        have hmem2 : ∀ e ∈ rest, entryPath e ∈
            fsInsert (fsErase fs (pathJoin d0 f0)) (pathJoin d (p ++ ".nxml")) := by
          intro e he
          rw [mem_fsInsert, mem_fsErase]
          exact Or.inr ⟨hmemr e he, fun hh => (hrest.1 e he) (by simpa [entryPath] using hh.symm)⟩
        refine ⟨fun hnone => ?_, fun e0 he0 => ?_⟩
        · rw [hfind] at hnone; cases hnone
        · rw [hfind] at he0
          injection he0 with he0
          subst he0
          refine ⟨?_, ?_, ?_⟩
          · exact renameLoop_keeps d p rest _ _ _ hNin (fun f hf => hneNr f hf)
          · refine renameLoop_not_target d p rest _ _ _ ?_ hhdP hhdN
            rw [mem_fsInsert, mem_fsErase]
            rintro (hh | ⟨-, hh⟩)
            exacts [hhdN (by simpa [entryPath] using hh), hh rfl]
          · intro e he hxml hne0
            rcases List.mem_cons.mp he with rfl | he2
            · exact absurd rfl hne0
            · exact (renameLoop_xml_stable d p rest _ _ hrest.2 hmem2 hnePr hneNr hNin).2
                e he2 hxml
      · -- head matches neither extension: skipped
        have hx0 : isXmlName f0 = false := by simpa using h3
        rw [hx0] at hfind
        simp only [Bool.false_eq_true, if_false] at hfind
        have IH := ih fs logs hrest.2 hmemr hnePr hneNr hN
        refine ⟨fun hnone => ?_, fun e0 he0 => ?_⟩
        · rw [hfind] at hnone; exact IH.1 hnone
        · rw [hfind] at he0
          obtain ⟨a, b, c⟩ := IH.2 e0 he0
          refine ⟨a, b, ?_⟩
          intro e he hxml hne0
          rcases List.mem_cons.mp he with rfl | he2
          · exact absurd hxml (by simpa using h3)
          · exact c e he2 hxml hne0

/-- C4: when `download_article_files` takes the archive path (no
direct link, a `tgz` link, download and extraction succeed), the
archive file is absent from the final file set, the first walked entry
with a PDF extension (case-insensitive) is renamed to
`{pmcid}.pdf` — its old path gone, the target present — and every
later PDF-classified entry keeps its original path; the same holds for
the first XML/NXML-classified entry and `{pmcid}.nxml`. -/
theorem tgz_extract_rename (pmcid save_dir href : String) (env : DLEnv) (root : XML)
    (entries : List (String × String))
    (henv : env.oa = .parsed root)
    (herr : descFind "error" root = none)
    (hpdf : linksGet (buildLinks (descFindAll "link" root)) "pdf" = none)
    (hxml : linksGet (buildLinks (descFindAll "link" root)) "xml" = none)
    (htgz : linksGet (buildLinks (descFindAll "link" root)) "tgz" = some href)
    (hdl : env.dl href = .ok)
    (htar : env.tar = .extracted entries)
    (hpair : entries.Pairwise (fun a b => entryPath a ≠ entryPath b))
    (hneT : ∀ e ∈ entries,
      entryPath e ≠ pathJoin (pathJoin save_dir pmcid) (basenameOf href))
    (hneP : ∀ e ∈ entries,
      entryPath e ≠ pathJoin (pathJoin save_dir pmcid) (pmcid ++ ".pdf"))
    (hneN : ∀ e ∈ entries,
      entryPath e ≠ pathJoin (pathJoin save_dir pmcid) (pmcid ++ ".nxml"))
    (hTP : pathJoin (pathJoin save_dir pmcid) (basenameOf href) ≠
      pathJoin (pathJoin save_dir pmcid) (pmcid ++ ".pdf"))
    (hTN : pathJoin (pathJoin save_dir pmcid) (basenameOf href) ≠
      pathJoin (pathJoin save_dir pmcid) (pmcid ++ ".nxml")) :
    pathJoin (pathJoin save_dir pmcid) (basenameOf href) ∉
      (download_article_files pmcid save_dir env).fs ∧
    (entries.find? (fun e => isPdfName e.2) = none →
      pathJoin (pathJoin save_dir pmcid) (pmcid ++ ".pdf") ∉
        (download_article_files pmcid save_dir env).fs) ∧
    (∀ e0, entries.find? (fun e => isPdfName e.2) = some e0 →
      pathJoin (pathJoin save_dir pmcid) (pmcid ++ ".pdf") ∈
        (download_article_files pmcid save_dir env).fs ∧
      entryPath e0 ∉ (download_article_files pmcid save_dir env).fs ∧
      ∀ e ∈ entries, isPdfName e.2 → entryPath e ≠ entryPath e0 →
        entryPath e ∈ (download_article_files pmcid save_dir env).fs) ∧
    (entries.find? (fun e => isXmlName e.2) = none →
      pathJoin (pathJoin save_dir pmcid) (pmcid ++ ".nxml") ∉
        (download_article_files pmcid save_dir env).fs) ∧
    (∀ e0, entries.find? (fun e => isXmlName e.2) = some e0 →
      pathJoin (pathJoin save_dir pmcid) (pmcid ++ ".nxml") ∈
        (download_article_files pmcid save_dir env).fs ∧
      entryPath e0 ∉ (download_article_files pmcid save_dir env).fs ∧
      ∀ e ∈ entries, isXmlName e.2 → entryPath e ≠ entryPath e0 →
        entryPath e ∈ (download_article_files pmcid save_dir env).fs) := by
  have hA : (download_article_files pmcid save_dir env).fs =
      (renameLoop (pathJoin save_dir pmcid) pmcid entries
        (fsErase (fsInsertAll
          (fsInsert [] (pathJoin (pathJoin save_dir pmcid) (basenameOf href)))
          (entries.map entryPath))
          (pathJoin (pathJoin save_dir pmcid) (basenameOf href))) []).1 := by
    simp [download_article_files, henv, herr, hpdf, hxml, tgzStep, htgz, hdl, htar,
      DLState.addLog, DLState.addFile]
  have hmem2 : ∀ e ∈ entries, entryPath e ∈
      fsErase (fsInsertAll
        (fsInsert [] (pathJoin (pathJoin save_dir pmcid) (basenameOf href)))
        (entries.map entryPath))
        (pathJoin (pathJoin save_dir pmcid) (basenameOf href)) := by
    intro e he
    rw [mem_fsErase, mem_fsInsertAll]
    exact ⟨Or.inr (List.mem_map_of_mem _ he), hneT e he⟩
  have hT2 : pathJoin (pathJoin save_dir pmcid) (basenameOf href) ∉
      fsErase (fsInsertAll
        (fsInsert [] (pathJoin (pathJoin save_dir pmcid) (basenameOf href)))
        (entries.map entryPath))
        (pathJoin (pathJoin save_dir pmcid) (basenameOf href)) := by
    rw [mem_fsErase]
    rintro ⟨-, hh⟩
    exact hh rfl
  have hP2 : pathJoin (pathJoin save_dir pmcid) (pmcid ++ ".pdf") ∉
      fsErase (fsInsertAll
        (fsInsert [] (pathJoin (pathJoin save_dir pmcid) (basenameOf href)))
        (entries.map entryPath))
        (pathJoin (pathJoin save_dir pmcid) (basenameOf href)) := by
    rw [mem_fsErase, mem_fsInsertAll, mem_fsInsert]
    rintro ⟨(hh | hh) | hh, -⟩
    · exact hTP hh.symm
    · simp at hh
    · obtain ⟨e, he, hpe⟩ := List.mem_map.mp hh
      exact hneP e he hpe
  have hN2 : pathJoin (pathJoin save_dir pmcid) (pmcid ++ ".nxml") ∉
      fsErase (fsInsertAll
        (fsInsert [] (pathJoin (pathJoin save_dir pmcid) (basenameOf href)))
        (entries.map entryPath))
        (pathJoin (pathJoin save_dir pmcid) (basenameOf href)) := by
    rw [mem_fsErase, mem_fsInsertAll, mem_fsInsert]
    rintro ⟨(hh | hh) | hh, -⟩
    · exact hTN hh.symm
    · simp at hh
    · obtain ⟨e, he, hpe⟩ := List.mem_map.mp hh
      exact hneN e he hpe
  have HP := renameLoop_pdf_first (pathJoin save_dir pmcid) pmcid entries _ []
    hpair hmem2 hneP hneN hP2
  have HN := renameLoop_xml_first (pathJoin save_dir pmcid) pmcid entries _ []
    hpair hmem2 hneP hneN hN2
  rw [hA]
  exact ⟨renameLoop_not_target _ _ _ _ _ _ hT2 hTP hTN, HP.1, HP.2, HN.1, HN.2⟩

/-- C4 witness: a concrete archive containing `main.pdf`, `extra.PDF`
and `doc.nxml` — the archive file is removed, `main.pdf` becomes
`PMC1.pdf`, `doc.nxml` becomes `PMC1.nxml`, and `extra.PDF` stays. -/
theorem tgz_extract_rename_witness :
    "downloads/PMC1/PMC1.tar.gz" ∉ (download_article_files "PMC1" "downloads" tgzEnv).fs ∧
    "downloads/PMC1/PMC1.pdf" ∈ (download_article_files "PMC1" "downloads" tgzEnv).fs ∧
    "downloads/PMC1/PMC1/main.pdf" ∉ (download_article_files "PMC1" "downloads" tgzEnv).fs ∧
    "downloads/PMC1/PMC1/extra.PDF" ∈ (download_article_files "PMC1" "downloads" tgzEnv).fs ∧
    "downloads/PMC1/PMC1.nxml" ∈ (download_article_files "PMC1" "downloads" tgzEnv).fs ∧
    "downloads/PMC1/PMC1/doc.nxml" ∉ (download_article_files "PMC1" "downloads" tgzEnv).fs := by
  have T := tgz_extract_rename "PMC1" "downloads"
    "https://ftp.ncbi.nlm.nih.gov/pub/pmc/oa_package/ab/cd/PMC1.tar.gz" tgzEnv oaTgzRoot
    tgzEntries rfl rfl rfl rfl rfl rfl rfl
    (by decide) (by decide) (by decide) (by decide) (by decide) (by decide)
  obtain ⟨hT, -, hPdf, -, hXml⟩ := T
  obtain ⟨hp1, hp2, hp3⟩ := hPdf ("downloads/PMC1/PMC1", "main.pdf") rfl
  obtain ⟨hx1, hx2, -⟩ := hXml ("downloads/PMC1/PMC1", "doc.nxml") rfl
  exact ⟨hT, hp1, hp2,
    hp3 ("downloads/PMC1/PMC1", "extra.PDF") (by decide) (by decide) (by decide),
    hx1, hx2⟩

/-- Helper: the leap-year count steps by one exactly at leap years. -/
theorem leapsUpto_succ (n : Nat) :
    leapsUpto (n + 1) = leapsUpto n + leapAdj (n + 1) := by
  by_cases h4 : (n + 1) % 4 = 0 <;> by_cases h100 : (n + 1) % 100 = 0 <;>
    by_cases h400 : (n + 1) % 400 = 0 <;>
      simp [leapsUpto, leapAdj, isLeap, h4, h100, h400] <;> omega

/-- Helper: year projection of a built date. -/
theorem date_year_mk (y m d : Nat) : (Date.mk y m d).year = y := rfl

/-- Helper: month projection of a built date. -/
theorem date_month_mk (y m d : Nat) : (Date.mk y m d).month = m := rfl

/-- Helper: day projection of a built date. -/
theorem date_day_mk (y m d : Nat) : (Date.mk y m d).day = d := rfl

/-- Helper: `predDay` really is the calendar predecessor: it preserves
validity and decreases the proleptic day number by exactly one. -/
theorem predDay_step (d : Date) (hv : validDate d) (h2 : 2 ≤ dayNumber d) :
    validDate (predDay d) ∧ dayNumber (predDay d) + 1 = dayNumber d := by
  obtain ⟨y, m, dd⟩ := d
  obtain ⟨hy, hm1, hm12, hd1, hdm⟩ := hv
  simp only [date_year_mk, date_month_mk, date_day_mk] at hy hm1 hm12 hd1 hdm
  simp only [predDay, date_year_mk, date_month_mk, date_day_mk]
  split_ifs with hgt hmgt
  · -- a day later than the first of the month
    refine ⟨⟨hy, hm1, hm12, ?_, ?_⟩, ?_⟩
    · show 1 ≤ dd - 1
      omega
    · show dd - 1 ≤ daysInMonth y m
      omega
    · show dayNumber ⟨y, m, dd - 1⟩ + 1 = dayNumber ⟨y, m, dd⟩
      unfold dayNumber
      simp only [date_year_mk, date_month_mk, date_day_mk]
      omega
  · -- the first day of a month other than January
    have hdd : dd = 1 := by omega
    subst hdd
    constructor
    · show validDate ⟨y, m - 1, daysInMonth y (m - 1)⟩
      unfold validDate
      simp only [date_year_mk, date_month_mk, date_day_mk]
      refine ⟨hy, by omega, by omega, ?_, le_refl _⟩
      interval_cases m <;> simp [daysInMonth] <;> omega
    · show dayNumber ⟨y, m - 1, daysInMonth y (m - 1)⟩ + 1 = dayNumber ⟨y, m, 1⟩
      unfold dayNumber
      simp only [date_year_mk, date_month_mk, date_day_mk]
      interval_cases m <;> simp [daysBefore, daysInMonth] <;> omega
  · -- the first of January
    have hdd : dd = 1 := by omega
    have hmm : m = 1 := by omega
    subst hdd
    subst hmm
    have hy2 : 2 ≤ y := by
      rcases Nat.lt_or_ge y 2 with hlt | hge
      · have hy1 : y = 1 := by omega
        subst hy1
        have hval : dayNumber ⟨1, 1, 1⟩ = 1 := rfl
        omega
      · exact hge
    have hstep := leapsUpto_succ (y - 2)
    rw [show y - 2 + 1 = y - 1 by omega] at hstep
    constructor
    · show validDate ⟨y - 1, 12, 31⟩
      unfold validDate
      simp only [date_year_mk, date_month_mk, date_day_mk]
      refine ⟨by omega, by omega, by omega, by omega, ?_⟩
      simp [daysInMonth]
    · show dayNumber ⟨y - 1, 12, 31⟩ + 1 = dayNumber ⟨y, 1, 1⟩
      unfold dayNumber
      simp only [date_year_mk, date_month_mk, date_day_mk, daysBefore]
      rw [show y - 1 - 1 = y - 2 by omega]
      omega

/-- Helper: iterating `predDay` `n` times stays valid and decreases the
day number by exactly `n`, as long as the start is at least `n + 1`
days after the calendar origin. -/
theorem predDay_iter (n : Nat) (d : Date) (hv : validDate d)
    (hn : n + 1 ≤ dayNumber d) :
    validDate (predDay^[n] d) ∧ dayNumber (predDay^[n] d) + n = dayNumber d := by
  induction n generalizing d with
  | zero => simpa using hv
  | succ k ih =>
      rw [Function.iterate_succ_apply]
      have hstep := predDay_step d hv (by omega)
      have hk := ih (predDay d) hstep.1 (by omega)
      exact ⟨hk.1, by omega⟩

/-- Helper: the `YYYY/MM/DD` rendering always has ten characters. -/
theorem strfDate_length (d : Date) : (strfDate d).length = 10 := by
  have h1 : ("/" : String).length = 1 := rfl
  simp [strfDate, pad2, pad4, String.length_append, h1]

/-- C6: a `search_pmc` call with no explicit dates issues a request
whose `mindate` is the current date minus 15 calendar days and whose
`maxdate` is the current date, both rendered as `YYYY/MM/DD`; the
subtracted date is a valid calendar date lying exactly 15 days before
the current one. -/
theorem default_search_window (term : String) (maxr : Nat) (now : Date)
    (hv : validDate now) (h16 : 16 ≤ dayNumber now) :
    (search_pmc_params term maxr none none now).mindate =
      some (strfDate (dateSubDays now 15)) ∧
    (search_pmc_params term maxr none none now).maxdate = some (strfDate now) ∧
    validDate (dateSubDays now 15) ∧
    dayNumber (dateSubDays now 15) + 15 = dayNumber now ∧
    (strfDate (dateSubDays now 15)).length = 10 ∧
    (strfDate now).length = 10 := by
  have H := predDay_iter 15 now hv (by omega)
  exact ⟨rfl, rfl, H.1, H.2, strfDate_length _, strfDate_length _⟩

/-- C6 witness: from March 10, 2024 the default window runs from
February 24, 2024 (15 days earlier, across the leap day) to March 10,
2024. -/
theorem default_search_window_witness :
    (search_pmc_params "cancer" 5 none none (Date.mk 2024 3 10)).mindate =
      some (strfDate (dateSubDays (Date.mk 2024 3 10) 15)) ∧
    (search_pmc_params "cancer" 5 none none (Date.mk 2024 3 10)).maxdate =
      some (strfDate (Date.mk 2024 3 10)) ∧
    dayNumber (dateSubDays (Date.mk 2024 3 10) 15) + 15 = dayNumber (Date.mk 2024 3 10) ∧
    dateSubDays (Date.mk 2024 3 10) 15 = Date.mk 2024 2 24 ∧
    strfDate (dateSubDays (Date.mk 2024 3 10) 15) = "2024/02/24" ∧
    strfDate (Date.mk 2024 3 10) = "2024/03/10" := by
  have H := default_search_window "cancer" 5 (Date.mk 2024 3 10) (by decide) (by decide)
  exact ⟨H.1, H.2.1, H.2.2.2.1, by decide, rfl, rfl⟩

end PMC
